import Mathlib

/-!
# Verification of the content-based movie recommendation core

Shallow embedding of the recommendation engine of the repository
(`src/utils.py`, `src/search.py`, `src/ai_chatbot.py`) and proofs of the
spec claims about it.

Modelling conventions:
* pandas DataFrames of movie records become `List Entry` (default RangeIndex,
  so row label = list position);
* the fitted TF-IDF matrix becomes `List (List ℚ)`, one row of term weights
  per catalogue row.  `TfidfVectorizer(norm='l2')` emits rows that are
  L2-normalized (unit rows, or zero rows for documents with no in-vocabulary
  term); on such rows `sklearn.metrics.pairwise.cosine_similarity` reduces to
  plain dot products, which is how `compute_similarity_for_movie` is embedded.
  The real-valued cosine formula itself (with its square roots) is embedded
  separately over `ℝ` as `cosineSimilarityR`;
* floating-point similarity arithmetic is modelled by exact arithmetic
  (`ℚ`, and `ℝ` where square roots are needed);
* Streamlit UI side effects (`st.error`, `st.warning`,
  `st.session_state[...] = ...`) are modelled as returned outcome values;
* external I/O (the TMDB HTTP request plus `.json()` decoding) is modelled
  by an `Except FetchError TmdbMovieJson` input: `Except.error` covers a
  network error, a timeout, or a malformed response body, exactly the cases
  in which the Python `try` body raises and control reaches `except`.
-/

/-- One row of the movie catalogue (`movies_df`): the fields of the pickled
records that the embedded code reads. -/
structure Entry where
  movie_id : Int
  title : String
  tags : String
deriving DecidableEq, Inhabited

/-- Dot product of two weight rows, `zipWith (*)` then sum (trailing entries
of the longer row are ignored, as for equal-length rows it makes no
difference). -/
def dotp (u v : List ℚ) : ℚ := (List.zipWith (fun a b => a * b) u v).sum

/-- `compute_similarity_for_movie` (src/utils.py lines 26-34): the similarity
scores of row `movie_index` against every row of the matrix.  The source
computes `cosine_similarity(movie_vector, _tfidf_matrix).flatten()`; on the
L2-normalized rows produced by `TfidfVectorizer` this is the dot product of
`movie_vector` with each row (unit rows are left unchanged by the
re-normalization inside `cosine_similarity`, zero rows stay zero). -/
def compute_similarity_for_movie (movie_index : ℕ) (tfidf_matrix : List (List ℚ)) :
    List ℚ :=
  let movie_vector := tfidf_matrix.getD movie_index []
  tfidf_matrix.map (fun row => dotp movie_vector row)

/-- Stable insertion of one `(row index, score)` pair into a list sorted by
descending score: the new element goes in front of the first element whose
score it reaches.  This is the insertion step realizing the semantics of
Python `sorted(..., reverse=True, key=lambda x: x[1])`, which is stable also
with `reverse=True` (ties keep their original relative order). -/
def insertDesc (x : ℕ × ℚ) : List (ℕ × ℚ) → List (ℕ × ℚ)
  | [] => [x]
  | y :: ys => if y.2 ≤ x.2 then x :: y :: ys else y :: insertDesc x ys

/-- Stable descending sort by score, the semantics of
`sorted(list(enumerate(similarity_scores)), reverse=True, key=lambda x: x[1])`
(src/utils.py line 125). -/
def sortDesc : List (ℕ × ℚ) → List (ℕ × ℚ)
  | [] => []
  | x :: xs => insertDesc x (sortDesc xs)

/-- The full ranked `(row index, score)` sequence for a similarity query:
score-descending stable sort of the enumerated similarity scores
(src/utils.py line 125 before the slice). -/
def rankedPairs (movie_index : ℕ) (tfidf_matrix : List (List ℚ)) : List (ℕ × ℚ) :=
  sortDesc (compute_similarity_for_movie movie_index tfidf_matrix).enum

/-- The `distances` list of `recommend`: the slice `[1:top_n+1]` of the
ranked sequence, i.e. drop the top-ranked pair, keep the next `top_n`. -/
def recommendDistances (movie_index : ℕ) (tfidf_matrix : List (List ℚ))
    (top_n : ℕ) : List (ℕ × ℚ) :=
  ((rankedPairs movie_index tfidf_matrix).drop 1).take top_n

/-- The ranking order of the sorted output: strictly larger score first, or
equal score with strictly smaller row index first. -/
def rankRel (a b : ℕ × ℚ) : Prop := b.2 < a.2 ∨ (a.2 = b.2 ∧ a.1 < b.1)

/-- A video record of the TMDB payload (`videos.results` entries). -/
structure Video where
  type : String
  key : String
deriving DecidableEq, Inhabited

/-- The dictionary `fetch_movie_details` returns (src/utils.py lines 65-85). -/
structure MovieDetails where
  rating : ℚ
  vote_count : Int
  overview : String
  runtime : Int
  release_date : String
  genres : List String
  videos : List Video
  cast : List String
deriving DecidableEq, Inhabited

/-- The value `recommend` produces: the 4-tuple of equal-length lists plus the
`st.error` message the source surfaces on failure (modelled as a returned
annotation instead of a UI side effect). -/
structure RecResult where
  recommended_movies : List String
  recommended_posters : List String
  recommended_ratings : List ℚ
  recommended_ids : List Int
  error : Option String
deriving DecidableEq

/-- `recommend` (src/utils.py lines 116-151).
`movies_df[movies_df['title'] == movie].index[0]` is the first row whose
title is exactly (case-sensitively) equal to `movie`; when there is none the
`IndexError` branch runs: `st.error(...)` and four empty lists, modelled by
the `error` field (the message drops the quotes around the title of the
f-string `f"Movie '{movie}' not found in database"`).  On success the slice
`distances` is taken, `movie_id`s are extracted, posters and details are
fetched per id (the fetchers are parameters: they are external collaborators
whose `try/except` bodies never raise), and the four lists are built in one
pass over `distances`.  `movies_df.iloc` is modelled totally by `getD`; for
a matrix with one row per catalogue row (the VectorSpace invariant) every
ranked index is in range. -/
def recommend (movie : String) (movies_df : List Entry)
    (tfidf_matrix : List (List ℚ)) (top_n : ℕ)
    (fetchPosterById : Int → String) (fetchDetailsById : Int → MovieDetails) :
    RecResult :=
  match movies_df.findIdx? (fun e => e.title = movie) with
  | none =>
      { recommended_movies := [], recommended_posters := []
        recommended_ratings := [], recommended_ids := []
        error := some ("Movie " ++ movie ++ " not found in database") }
  | some movie_index =>
      let distances := recommendDistances movie_index tfidf_matrix top_n
      let movie_ids := distances.map (fun p => (movies_df.getD p.1 default).movie_id)
      let details_list := movie_ids.map fetchDetailsById
      let posters_list := movie_ids.map fetchPosterById
      { recommended_movies := distances.map (fun p => (movies_df.getD p.1 default).title)
        recommended_posters := posters_list
        recommended_ratings := details_list.map (fun d => d.rating)
        recommended_ids := movie_ids
        error := none }

/-- The ways the `try` body of the fetch helpers can fail before a dictionary
is available: the HTTP request raising (network error), the 3-second timeout
expiring, or `response.json()` failing on a malformed body. -/
inductive FetchError
  | networkError
  | timeout
  | malformedResponse
deriving DecidableEq

/-- The fields of the decoded TMDB movie payload that the fetch helpers read,
each optional (`dict.get` with a default in the source). -/
structure TmdbMovieJson where
  poster_path : Option String
  vote_average : Option ℚ
  vote_count : Option Int
  overview : Option String
  runtime : Option Int
  release_date : Option String
  genre_names : Option (List String)
  videos_results : Option (List Video)
  credits_cast_names : Option (List String)
deriving DecidableEq

/-- `fetch_poster` (src/utils.py lines 40-54).  The HTTP round trip plus JSON
decoding is the `response` argument; `movie_id` only forms the request URL,
so it does not affect the result.  On any failure, and on a missing or null
`poster_path`, the placeholder URL is returned. -/
def fetch_poster (movie_id : Int) (response : Except FetchError TmdbMovieJson) :
    String :=
  match response with
  | .error _ => "https://via.placeholder.com/500x750?text=No+Image"
  | .ok data =>
      match data.poster_path with
      | some poster_path => "http://image.tmdb.org/t/p/w500/" ++ poster_path
      | none => "https://via.placeholder.com/500x750?text=No+Image"

/-- The default record the `except` branch of `fetch_movie_details` returns
(src/utils.py lines 76-85). -/
def defaultDetails : MovieDetails :=
  { rating := 0, vote_count := 0, overview := "No description available."
    runtime := 0, release_date := "Unknown", genres := [], videos := []
    cast := [] }

/-- `fetch_movie_details` (src/utils.py lines 57-85).  On success each field
falls back to the documented default when absent from the payload; the cast
list keeps the first 5 names; on any failure the whole default record is
returned. -/
def fetch_movie_details (movie_id : Int)
    (response : Except FetchError TmdbMovieJson) : MovieDetails :=
  match response with
  | .error _ => defaultDetails
  | .ok data =>
      { rating := data.vote_average.getD 0
        vote_count := data.vote_count.getD 0
        overview := data.overview.getD "No description available."
        runtime := data.runtime.getD 0
        release_date := data.release_date.getD "Unknown"
        genres := data.genre_names.getD []
        videos := data.videos_results.getD []
        cast := (data.credits_cast_names.getD []).take 5 }

/-- Lower-casing of a character list, modelling Python `str.lower()` on the
ASCII titles the code handles. -/
def lowerChars (s : List Char) : List Char := s.map Char.toLower

/-- Python `str.strip()`: drop whitespace from both ends. -/
def stripChars (s : List Char) : List Char :=
  ((s.dropWhile Char.isWhitespace).reverse.dropWhile Char.isWhitespace).reverse

/-- Does the pattern match at the very start of the text?  Modelled fragment
of the Python `re` semantics that `pandas.Series.str.contains` applies with
its default `regex=True`: literal characters plus the `.` wildcard (one
arbitrary character), which covers every pattern appearing in this
development. -/
def regexMatchHere : List Char → List Char → Bool
  | [], _ => true
  | _ :: _, [] => false
  | p :: ps, c :: cs => (p = '.' || p = c) && regexMatchHere ps cs

/-- Python `re.search`: does the pattern match starting at some position of
the text? -/
def regexSearch (pat : List Char) : List Char → Bool
  | [] => regexMatchHere pat []
  | c :: cs => regexMatchHere pat (c :: cs) || regexSearch pat cs

/-- `movies_df['title'].str.contains(search_input, case=False, na=False)`
(src/search.py line 25): pandas compiles the user text as a regular
expression (default `regex=True`) with `re.IGNORECASE` and applies
`re.search`; case-insensitivity is modelled by lower-casing both sides. -/
def pyContainsCI (search_input title : String) : Bool :=
  regexSearch (lowerChars search_input.data) (lowerChars title.data)

/-- Literal (non-regex) substring containment of character lists. -/
def containsSub (needle : List Char) : List Char → Bool
  | [] => needle.isEmpty
  | c :: cs => (needle.isPrefixOf (c :: cs) : Bool) || containsSub needle cs

/-- The relation the spec's words describe for the partial-match step:
`title` contains the user text as a case-insensitive SUBSTRING (spec §4.4
step 2).  Stated from the spec, for comparison against the source's
regex-based `pyContainsCI`. -/
def specSubstringCI (search_input title : String) : Bool :=
  containsSub (lowerChars search_input.data) (lowerChars title.data)

/-- Do positions `i` of `a` and `j` of `b` hold the same character? -/
def matchAt (a b : List Char) (i j : ℕ) : Bool :=
  match a.get? i, b.get? j with
  | some x, some y => x = y
  | _, _ => false

/-- Length of the common contiguous block of `a` and `b` ending exactly at
positions `(i, j)` (the `j2len` diagonal count of
`difflib.SequenceMatcher.find_longest_match`). -/
def endLen (a b : List Char) : ℕ → ℕ → ℕ
  | 0, j => if matchAt a b 0 j then 1 else 0
  | i + 1, 0 => if matchAt a b (i + 1) 0 then 1 else 0
  | i + 1, j + 1 => if matchAt a b (i + 1) (j + 1) then endLen a b i j + 1 else 0

/-- `find_longest_match(alo, ahi, blo, bhi)` of `difflib.SequenceMatcher`
without junk (the code passes `isjunk=None` and movie titles are far below
the 200-character autojunk threshold): scan ending positions `i` then `j` in
ascending order, keep a block only when strictly longer than the best so far
— so the returned block is the longest one, earliest in `a` then in `b`.
Block lengths are clipped at the window start, as the `j2len` dictionary is
rebuilt inside the window. -/
def findLongestMatch (a b : List Char) (alo ahi blo bhi : ℕ) : ℕ × ℕ × ℕ :=
  (List.range' alo (ahi - alo)).foldl
    (fun best i =>
      (List.range' blo (bhi - blo)).foldl
        (fun best j =>
          let k := min (endLen a b i j) (min (i + 1 - alo) (j + 1 - blo))
          if best.2.2 < k then (i + 1 - k, j + 1 - k, k) else best)
        best)
    (alo, blo, 0)

/-- Total size of all matching blocks (`get_matching_blocks`): recursively
split around the longest match.  The `a`-window shrinks by at least one at
every level, so `ahi - alo` steps of fuel always suffice; the top-level call
passes `a.length`. -/
def matchedTotal (a b : List Char) : ℕ → ℕ → ℕ → ℕ → ℕ → ℕ
  | 0, _, _, _, _ => 0
  | fuel + 1, alo, ahi, blo, bhi =>
    match findLongestMatch a b alo ahi blo bhi with
    | (besti, bestj, bestsize) =>
      if bestsize = 0 then 0
      else
        matchedTotal a b fuel alo besti blo bestj + bestsize +
          matchedTotal a b fuel (besti + bestsize) ahi (bestj + bestsize) bhi

/-- `difflib.SequenceMatcher(None, a, b).ratio()`: `2*M / (len(a)+len(b))`,
and 1 when both are empty (`_calculate_ratio`). -/
def sequenceMatcherRatio (a b : List Char) : ℚ :=
  if a.length + b.length = 0 then 1
  else 2 * (matchedTotal a b a.length 0 a.length 0 b.length : ℚ) /
    (a.length + b.length : ℚ)

/-- The similarity score `handle_search` attaches to a candidate title:
`SequenceMatcher(None, search_input.lower(), x.lower()).ratio()`
(src/search.py lines 29-31). -/
def ratioOf (search_input : String) (e : Entry) : ℚ :=
  sequenceMatcherRatio (lowerChars search_input.data) (lowerChars e.title.data)

/-- First maximum of `f` over `x :: l`: fold keeping the current best and
replacing it only on a strictly larger value.  This is the element
`search_results.sort_values('similarity', ascending=False)` places first:
pandas' `nargsort` reverses the row order, argsorts ascending and reverses
the indexer again, so with the stable behaviour the underlying sort exhibits
on ties, equal scores keep their original (catalogue row) order and `iloc[0]`
is the earliest row attaining the maximal score. -/
def bestBy (f : Entry → ℚ) (x : Entry) (l : List Entry) : Entry :=
  l.foldl (fun best e => if f best < f e then e else best) x

/-- What one run of `handle_search` does to the session state: select a
movie, warn that nothing was found, or do nothing (empty input, or an input
of pure whitespace with no match). -/
inductive SearchOutcome
  | selected (title : String)
  | warned
  | noAction
deriving DecidableEq

/-- `handle_search` (src/search.py lines 15-42), the title resolver.
`if search_input:` is Python truthiness (non-empty string); the exact step
compares lower-cased titles for equality and takes the first match
(`exact_match.iloc[0]`); the partial step filters by
`str.contains(search_input, case=False, na=False)` — a REGEX match, pandas'
default — attaches SequenceMatcher ratios, sorts descending and selects the
top row; with no match, the warning fires only when the stripped input is
non-empty. -/
def handle_search (search_input : String) (movies_df : List Entry) :
    SearchOutcome :=
  if search_input = "" then .noAction
  else
    match movies_df.find?
        (fun e => lowerChars e.title.data = lowerChars search_input.data) with
    | some e => .selected e.title
    | none =>
        match movies_df.filter (fun e => pyContainsCI search_input e.title) with
        | r :: rs => .selected (bestBy (ratioOf search_input) r rs).title
        | [] =>
            if stripChars search_input.data ≠ [] then .warned else .noAction

/-- A `database_movies` entry as the external chat service supplies it:
every field may be missing (`movie.get(...)` in the source). -/
structure RawDbMovie where
  title : Option String
  movie_id : Option Int
  reason : Option String
deriving DecidableEq

/-- A revalidated `database_movies` entry (canonical title and id from the
catalogue, reason passed through). -/
structure DbMovie where
  title : String
  movie_id : Int
  reason : String
deriving DecidableEq

/-- `MovieChatbot.validate_movie_ids` (src/ai_chatbot.py lines 82-95), the
revalidation of the `database_movies` list: for each entry, look up the
catalogue rows whose title equals the entry's title case-insensitively; keep
the entry only if some row matches, replacing title and id by the first
matching row's canonical values. -/
def validate_movie_ids (movies_df : List Entry) (database_movies : List RawDbMovie) :
    List DbMovie :=
  database_movies.filterMap (fun movie =>
    let title := movie.title.getD ""
    match movies_df.find?
        (fun e => lowerChars e.title.data = lowerChars title.data) with
    | some matched =>
        some { title := matched.title, movie_id := matched.movie_id
               reason := movie.reason.getD "" }
    | none => none)

/-- Dot product over `ℝ`, for the real-valued cosine formula. -/
noncomputable def dotpR (u v : List ℝ) : ℝ :=
  (List.zipWith (fun a b => a * b) u v).sum

/-- The per-vector denominator factor of sklearn's `cosine_similarity`:
`normalize` divides each row by its L2 norm, substituting 1 for a zero norm
(so zero rows stay zero instead of dividing by zero). -/
noncomputable def safeNorm (v : List ℝ) : ℝ :=
  if dotpR v v = 0 then 1 else Real.sqrt (dotpR v v)

/-- One entry of sklearn's `cosine_similarity` over `ℝ`:
`dot(u, v) / (|u| * |v|)` with the zero-norm guard of `sklearn.preprocessing.normalize`. -/
noncomputable def cosineSimilarityR (u v : List ℝ) : ℝ :=
  dotpR u v / (safeNorm u * safeNorm v)

/-- A concrete two-movie catalogue whose movies have identical tag texts
("A" and "B" share the tag blob "x"). -/
def dupDf : List Entry := [⟨1, "A", "x"⟩, ⟨2, "B", "x"⟩]

/-- The TF-IDF matrix the vectorizer produces for `dupDf`: identical tag
texts give identical (unit) rows. -/
def dupMatrix : List (List ℚ) := [[1], [1]]

/-- A concrete catalogue with exactly one entry titled "Inception" (up to
case) and one unrelated entry. -/
def inceptionDf : List Entry := [⟨1, "Inception", "t"⟩, ⟨2, "Other", "u"⟩]

/-- A unit-row TF-IDF matrix for `inceptionDf` with orthogonal rows. -/
def inceptionMatrix : List (List ℚ) := [[1, 0], [0, 1]]

/-! ## Arithmetic lemmas about the dot product -/

theorem dotp_nil_right (u : List ℚ) : dotp u [] = 0 := by
  cases u <;> simp [dotp]

theorem dotp_nonneg {u v : List ℚ} (hu : ∀ x ∈ u, 0 ≤ x) (hv : ∀ x ∈ v, 0 ≤ x) :
    0 ≤ dotp u v := by
  induction u generalizing v with
  | nil => simp [dotp]
  | cons a u ih =>
      cases v with
      | nil => simp [dotp]
      | cons b v =>
          have h1 : 0 ≤ a * b :=
            mul_nonneg (hu a (by simp)) (hv b (by simp))
          have h2 : 0 ≤ dotp u v :=
            ih (fun x hx => hu x (by simp [hx])) (fun x hx => hv x (by simp [hx]))
          have h3 : dotp (a :: u) (b :: v) = a * b + dotp u v := by simp [dotp]
          rw [h3]
          positivity

theorem dotp_self_nonneg (v : List ℚ) : 0 ≤ dotp v v := by
  induction v with
  | nil => simp [dotp]
  | cons a v ih =>
      have h : dotp (a :: v) (a :: v) = a * a + dotp v v := by simp [dotp]
      rw [h]
      nlinarith [mul_self_nonneg a]

/-- The cross-term estimate of the inductive Cauchy-Schwarz step:
`2xyD ≤ x²V + y²U` whenever `D² ≤ UV` with `U, V ≥ 0`. -/
theorem cs_cross_step (x y U V D : ℚ) (hU : 0 ≤ U) (hV : 0 ≤ V)
    (hD : D ^ 2 ≤ U * V) : 2 * (x * y) * D ≤ x ^ 2 * V + y ^ 2 * U := by
  have h1 : (2 * (x * y) * D) ^ 2 ≤ (x ^ 2 * V + y ^ 2 * U) ^ 2 := by
    nlinarith [sq_nonneg (x ^ 2 * V - y ^ 2 * U), sq_nonneg (x * y)]
  have h2 : 0 ≤ x ^ 2 * V + y ^ 2 * U := by positivity
  nlinarith [h1, h2]

/-- Cauchy-Schwarz for list dot products. -/
theorem dotp_sq_le (u v : List ℚ) : (dotp u v) ^ 2 ≤ dotp u u * dotp v v := by
  induction u generalizing v with
  | nil => simp [dotp]
  | cons a u ih =>
      cases v with
      | nil => simp [dotp_nil_right, dotp]
      | cons b v =>
          have e1 : dotp (a :: u) (b :: v) = a * b + dotp u v := by simp [dotp]
          have e2 : dotp (a :: u) (a :: u) = a * a + dotp u u := by simp [dotp]
          have e3 : dotp (b :: v) (b :: v) = b * b + dotp v v := by simp [dotp]
          rw [e1, e2, e3]
          have hU := dotp_self_nonneg u
          have hV := dotp_self_nonneg v
          have hIH := ih v
          have hkey := cs_cross_step a b (dotp u u) (dotp v v) (dotp u v) hU hV hIH
          nlinarith [hkey, hIH]

/-- A dot product of nonnegative rows of squared norm at most 1 is at most 1:
the upper similarity bound. -/
theorem dotp_le_one {u v : List ℚ} (hu : ∀ x ∈ u, 0 ≤ x) (hv : ∀ x ∈ v, 0 ≤ x)
    (h1 : dotp u u ≤ 1) (h2 : dotp v v ≤ 1) : dotp u v ≤ 1 := by
  have hs := dotp_sq_le u v
  have hnn := dotp_nonneg hu hv
  have hUnn := dotp_self_nonneg u
  have hVnn := dotp_self_nonneg v
  nlinarith

/-! ## Structure of the stable descending sort -/

theorem insertDesc_perm (x : ℕ × ℚ) (l : List (ℕ × ℚ)) :
    List.Perm (insertDesc x l) (x :: l) := by
  induction l with
  | nil => simp [insertDesc]
  | cons y ys ih =>
      by_cases h : y.2 ≤ x.2
      · simp [insertDesc, h]
      · simp only [insertDesc, if_neg h]
        exact (ih.cons y).trans (List.Perm.swap x y ys)

theorem sortDesc_perm (l : List (ℕ × ℚ)) : List.Perm (sortDesc l) l := by
  induction l with
  | nil => simp [sortDesc]
  | cons x xs ih =>
      exact (insertDesc_perm x (sortDesc xs)).trans (ih.cons x)

theorem sortDesc_length (l : List (ℕ × ℚ)) : (sortDesc l).length = l.length :=
  (sortDesc_perm l).length_eq

theorem mem_sortDesc {l : List (ℕ × ℚ)} {p : ℕ × ℚ} :
    p ∈ sortDesc l ↔ p ∈ l := (sortDesc_perm l).mem_iff

theorem pairwise_insertDesc {x : ℕ × ℚ} {l : List (ℕ × ℚ)}
    (hl : List.Pairwise rankRel l) (hidx : ∀ y ∈ l, x.1 < y.1) :
    List.Pairwise rankRel (insertDesc x l) := by
  induction l with
  | nil => simp [insertDesc]
  | cons y ys ih =>
      rcases List.pairwise_cons.mp hl with ⟨hy, hys⟩
      by_cases h : y.2 ≤ x.2
      · rw [insertDesc, if_pos h]
        refine List.pairwise_cons.mpr ⟨?_, hl⟩
        intro z hz
        rcases List.mem_cons.mp hz with rfl | hz
        · rcases lt_or_eq_of_le h with h2 | h2
          · exact Or.inl h2
          · exact Or.inr ⟨h2.symm, hidx z (by simp)⟩
        · have hyz := hy z hz
          rcases hyz with hyz | hyz
          · exact Or.inl (lt_of_lt_of_le hyz h)
          · rcases lt_or_eq_of_le h with h2 | h2
            · exact Or.inl (by rw [← hyz.1]; exact h2)
            · exact Or.inr ⟨h2.symm.trans hyz.1, hidx z (List.mem_cons_of_mem y hz)⟩
      · rw [insertDesc, if_neg h]
        have hx2 : x.2 < y.2 := lt_of_not_le h
        refine List.pairwise_cons.mpr ⟨?_, ih hys (fun z hz => hidx z (by simp [hz]))⟩
        intro z hz
        have hz2 : z = x ∨ z ∈ ys := by
          have := (insertDesc_perm x ys).mem_iff.mp hz
          simpa using this
        rcases hz2 with rfl | hz2
        · exact Or.inl hx2
        · exact hy z hz2

/-- The stable descending sort of a list with strictly increasing indices is
ranked: descending scores, ties by ascending index. -/
theorem pairwise_sortDesc {l : List (ℕ × ℚ)}
    (h : List.Pairwise (fun a b : ℕ × ℚ => a.1 < b.1) l) :
    List.Pairwise rankRel (sortDesc l) := by
  induction l with
  | nil => simp [sortDesc]
  | cons x xs ih =>
      rcases List.pairwise_cons.mp h with ⟨hx, hxs⟩
      rw [sortDesc]
      exact pairwise_insertDesc (ih hxs)
        (fun y hy => hx y (mem_sortDesc.mp hy))

/-! ## Lemmas about `List.enum` -/

theorem mem_enumFrom_getD {α : Type} (d : α) :
    ∀ (n : ℕ) (l : List α) (p : ℕ × α), p ∈ List.enumFrom n l →
      n ≤ p.1 ∧ p.1 - n < l.length ∧ p.2 = l.getD (p.1 - n) d := by
  intro n l
  induction l generalizing n with
  | nil => intro p hp; simp [List.enumFrom] at hp
  | cons x xs ih =>
      intro p hp
      rcases List.mem_cons.mp hp with rfl | hp
      · simp
      · rcases ih (n + 1) p hp with ⟨h1, h2, h3⟩
        refine ⟨by omega, ?_, ?_⟩
        · simp only [List.length_cons]
          omega
        · have hd : p.1 - n = (p.1 - (n + 1)) + 1 := by omega
          rw [hd, List.getD_cons_succ]
          exact h3

theorem enumFrom_mem_getD {α : Type} (d : α) :
    ∀ (n k : ℕ) (l : List α), k < l.length →
      (n + k, l.getD k d) ∈ List.enumFrom n l := by
  intro n k l
  induction l generalizing n k with
  | nil => intro h; simp at h
  | cons x xs ih =>
      intro hk
      cases k with
      | zero => simp
      | succ k =>
          have hm := ih (n + 1) k (by simpa using hk)
          have he : n + (k + 1) = (n + 1) + k := by omega
          rw [he, List.getD_cons_succ]
          exact List.mem_cons_of_mem _ hm

theorem le_fst_of_mem_enumFrom {α : Type} :
    ∀ (n : ℕ) (l : List α) (p : ℕ × α), p ∈ List.enumFrom n l → n ≤ p.1 := by
  intro n l
  induction l generalizing n with
  | nil => intro p hp; simp [List.enumFrom] at hp
  | cons x xs ih =>
      intro p hp
      rcases List.mem_cons.mp hp with rfl | hp
      · simp
      · exact le_trans (by omega) (ih (n + 1) p hp)

theorem pairwise_fst_lt_enumFrom {α : Type} :
    ∀ (n : ℕ) (l : List α),
      List.Pairwise (fun a b : ℕ × α => a.1 < b.1) (List.enumFrom n l) := by
  intro n l
  induction l generalizing n with
  | nil => simp [List.enumFrom]
  | cons x xs ih =>
      refine List.pairwise_cons.mpr ⟨?_, ih (n + 1)⟩
      intro p hp
      have hle := le_fst_of_mem_enumFrom (n + 1) xs p hp
      simpa using lt_of_lt_of_le (by omega) hle

theorem pairwise_fst_lt_enum {α : Type} (l : List α) :
    List.Pairwise (fun a b : ℕ × α => a.1 < b.1) l.enum :=
  pairwise_fst_lt_enumFrom 0 l

theorem fst_inj_of_pairwise {l : List (ℕ × ℚ)} {p q : ℕ × ℚ}
    (h : List.Pairwise (fun a b : ℕ × ℚ => a.1 < b.1) l)
    (hp : p ∈ l) (hq : q ∈ l) (he : p.1 = q.1) : p = q := by
  induction l with
  | nil => simp at hp
  | cons x xs ih =>
      rcases List.pairwise_cons.mp h with ⟨hx, hxs⟩
      rcases List.mem_cons.mp hp with hpx | hp
      · rcases List.mem_cons.mp hq with hqx | hq
        · rw [hpx, hqx]
        · exfalso
          have := hx q hq
          rw [hpx] at he
          omega
      · rcases List.mem_cons.mp hq with hqx | hq
        · exfalso
          have := hx p hp
          rw [hqx] at he
          omega
        · exact ih hxs hp hq

theorem nodup_of_pairwise_fst_lt {l : List (ℕ × ℚ)}
    (h : List.Pairwise (fun a b : ℕ × ℚ => a.1 < b.1) l) : l.Nodup :=
  h.imp (fun hab => by intro he; rw [he] at hab; exact lt_irrefl _ hab)

/-- If `(i, s)` strictly dominates every other-index pair of `l`, the stable
descending sort places it first, so nothing after position 0 carries index
`i`. -/
theorem sortDesc_drop_one_ne {l : List (ℕ × ℚ)} {i : ℕ} {s : ℚ}
    (hpair : List.Pairwise (fun a b : ℕ × ℚ => a.1 < b.1) l)
    (hmem : (i, s) ∈ l)
    (hmax : ∀ p ∈ l, p.1 ≠ i → p.2 < s) :
    ∀ p ∈ (sortDesc l).drop 1, p.1 ≠ i := by
  cases h : sortDesc l with
  | nil => intro p hp; simp at hp
  | cons q rest =>
      intro p hp hpi
      have hql : q ∈ l := mem_sortDesc.mp (h ▸ List.mem_cons_self q rest)
      have hqi : q.1 = i := by
        by_contra hq
        have hqs : q.2 < s := hmax q hql hq
        have hmem2 : (i, s) ∈ sortDesc l := mem_sortDesc.mpr hmem
        rw [h] at hmem2
        rcases List.mem_cons.mp hmem2 with he | hmem2
        · exact hq (by rw [← he])
        · have hpw := pairwise_sortDesc hpair
          rw [h] at hpw
          have hr := (List.pairwise_cons.mp hpw).1 (i, s) hmem2
          rcases hr with hr | hr
          · exact absurd hqs (by simp at hr ⊢; linarith)
          · exact absurd hqs (by simp at hr; rw [hr.1]; exact lt_irrefl s)
      have hpl : p ∈ l := by
        have hps : p ∈ sortDesc l := by
          rw [h]
          simp at hp
          exact List.mem_cons_of_mem q hp
        exact mem_sortDesc.mp hps
      have hpq : p = q := fst_inj_of_pairwise hpair hpl hql (by rw [hpi, hqi])
      have hnd : (sortDesc l).Nodup :=
        ((sortDesc_perm l).nodup_iff).mpr (nodup_of_pairwise_fst_lt hpair)
      rw [h] at hnd
      rcases List.nodup_cons.mp hnd with ⟨hqrest, _⟩
      simp at hp
      exact hqrest (hpq ▸ hp)

/-! ## First-maximum selection (`sort_values` + `iloc[0]`) -/


theorem bestBy_cons (f : Entry → ℚ) (x e : Entry) (es : List Entry) :
    bestBy f x (e :: es) = bestBy f (if f x < f e then e else x) es := rfl

theorem bestBy_mem (f : Entry → ℚ) (x : Entry) (l : List Entry) :
    bestBy f x l ∈ x :: l := by
  induction l generalizing x with
  | nil => simp [bestBy]
  | cons e es ih =>
      rw [bestBy_cons]
      by_cases h : f x < f e
      · rw [if_pos h]
        rcases List.mem_cons.mp (ih e) with he | he
        · rw [he]
          simp
        · simp [he]
      · rw [if_neg h]
        rcases List.mem_cons.mp (ih x) with he | he
        · rw [he]
          simp
        · simp [he]

theorem bestBy_max (f : Entry → ℚ) (x : Entry) (l : List Entry) :
    ∀ y ∈ x :: l, f y ≤ f (bestBy f x l) := by
  induction l generalizing x with
  | nil =>
      intro y hy
      rcases List.mem_cons.mp hy with hyx | hy
      · rw [hyx]
        simp [bestBy]
      · simp at hy
  | cons e es ih =>
      intro y hy
      rw [bestBy_cons]
      by_cases h : f x < f e
      · rw [if_pos h]
        rcases List.mem_cons.mp hy with hyx | hy2
        · rw [hyx]
          exact le_trans (le_of_lt h) (ih e e (by simp))
        · rcases List.mem_cons.mp hy2 with hye | hy3
          · rw [hye]
            exact ih e e (by simp)
          · exact ih e y (by simp [hy3])
      · rw [if_neg h]
        rcases List.mem_cons.mp hy with hyx | hy2
        · rw [hyx]
          exact ih x x (by simp)
        · rcases List.mem_cons.mp hy2 with hye | hy3
          · rw [hye]
            exact le_trans (le_of_not_lt h) (ih x x (by simp))
          · exact ih x y (by simp [hy3])

theorem bestBy_first (f : Entry → ℚ) (x : Entry) (l : List Entry) :
    ∃ l1 l2, x :: l = l1 ++ (bestBy f x l) :: l2 ∧
      ∀ y ∈ l1, f y < f (bestBy f x l) := by
  induction l generalizing x with
  | nil => exact ⟨[], [], by simp [bestBy], by simp⟩
  | cons e es ih =>
      by_cases h : f x < f e
      · have hstep : bestBy f x (e :: es) = bestBy f e es := by
          rw [bestBy_cons, if_pos h]
        rcases ih e with ⟨l1, l2, he, hlt⟩
        refine ⟨x :: l1, l2, ?_, ?_⟩
        · rw [hstep, List.cons_append, ← he]
        · intro y hy
          rw [hstep]
          rcases List.mem_cons.mp hy with hyx | hy2
          · rw [hyx]
            exact lt_of_lt_of_le h (bestBy_max f e es e (by simp))
          · exact hlt y hy2
      · have hstep : bestBy f x (e :: es) = bestBy f x es := by
          rw [bestBy_cons, if_neg h]
        rcases ih x with ⟨l1, l2, he, hlt⟩
        cases l1 with
        | nil =>
            simp only [List.nil_append] at he
            have hbx : bestBy f x es = x := ((List.cons_eq_cons.mp he).1).symm
            refine ⟨[], e :: es, ?_, by simp⟩
            rw [hstep, hbx]
            simp
        | cons z l1 =>
            rw [List.cons_append] at he
            have hzx : x = z := (List.cons_eq_cons.mp he).1
            have hes : es = l1 ++ (bestBy f x es) :: l2 := (List.cons_eq_cons.mp he).2
            refine ⟨x :: e :: l1, l2, ?_, ?_⟩
            · rw [hstep, List.cons_append, List.cons_append, ← hes]
            · intro y hy
              rw [hstep]
              rcases List.mem_cons.mp hy with hyx | hy2
              · rw [hyx]
                exact hlt x (by rw [hzx]; simp)
              · rcases List.mem_cons.mp hy2 with hye | hy3
                · rw [hye]
                  exact lt_of_le_of_lt (le_of_not_lt h) (hlt x (by rw [hzx]; simp))
                · exact hlt y (by simp [hy3])

/-! ## Claim theorems -/

/-- C8: every `database_movies` entry that survives `validate_movie_ids`
has a title matching some catalogue title exactly up to case, with title and
`movie_id` replaced by that catalogue entry's canonical values, and entries
whose title has no catalogue match are removed (the output is exactly as
long as the sublist of inputs with a case-insensitive catalogue match). -/
theorem C8_validate_revalidates (movies_df : List Entry)
    (database_movies : List RawDbMovie) :
    (∀ v ∈ validate_movie_ids movies_df database_movies,
      ∃ e ∈ movies_df, v.title = e.title ∧ v.movie_id = e.movie_id ∧
        ∃ raw ∈ database_movies,
          lowerChars e.title.data = lowerChars (raw.title.getD "").data ∧
          v.reason = raw.reason.getD "") ∧
    (validate_movie_ids movies_df database_movies).length =
      (database_movies.filter (fun m => movies_df.any
        (fun e => lowerChars e.title.data = lowerChars (m.title.getD "").data))).length := by
  constructor
  · intro v hv
    rcases List.mem_filterMap.mp hv with ⟨raw, hraw, hf⟩
    simp only at hf
    rcases hfind : movies_df.find?
        (fun e => lowerChars e.title.data = lowerChars (raw.title.getD "").data) with _ | matched
    · rw [hfind] at hf
      simp at hf
    · rw [hfind] at hf
      have hv2 := (Option.some.injEq _ _).mp hf
      have hmem := List.mem_of_find?_eq_some hfind
      have hp := List.find?_some hfind
      refine ⟨matched, hmem, ?_, ?_, raw, hraw, ?_, ?_⟩
      · rw [← hv2]
      · rw [← hv2]
      · exact of_decide_eq_true hp
      · rw [← hv2]
  · induction database_movies with
    | nil => simp [validate_movie_ids]
    | cons raw rest ih =>
        rw [validate_movie_ids, List.filterMap_cons]
        rcases hfind : movies_df.find?
            (fun e => lowerChars e.title.data = lowerChars (raw.title.getD "").data) with _ | matched
        · have hany : movies_df.any
              (fun e => lowerChars e.title.data = lowerChars (raw.title.getD "").data) = false := by
            rw [← Bool.not_eq_true, List.any_eq_true]
            intro ⟨x, hx, hpx⟩
            have hnone := List.find?_eq_none.mp hfind x hx
            exact hnone hpx
          simp only [hfind]
          rw [List.filter_cons, hany]
          simp only [Bool.false_eq_true, if_false]
          rw [← ih]
          rfl
        · have hp2 := List.find?_some hfind
          have hany : movies_df.any
              (fun e => lowerChars e.title.data = lowerChars (raw.title.getD "").data) = true := by
            rw [List.any_eq_true]
            exact ⟨matched, List.mem_of_find?_eq_some hfind, hp2⟩
          simp only [hfind]
          rw [List.filter_cons, hany]
          simp only [List.length_cons, if_true]
          rw [← ih]
          rfl

/-- C8 witness: a concrete catalogue and chat payload, where the fabricated
title is removed and the case-mismatched genuine title is kept. -/
theorem C8_validate_revalidates_witness :
    (validate_movie_ids [⟨1, "Inception", "t"⟩]
        [⟨some "INCEPTION", some 99, some "because"⟩,
         ⟨some "Fabricated", some 5, none⟩]).length =
      ([(⟨some "INCEPTION", some 99, some "because"⟩ : RawDbMovie),
        ⟨some "Fabricated", some 5, none⟩].filter
        (fun m => [(⟨1, "Inception", "t"⟩ : Entry)].any
          (fun e => lowerChars e.title.data = lowerChars (m.title.getD "").data))).length :=
  (C8_validate_revalidates [⟨1, "Inception", "t"⟩]
    [⟨some "INCEPTION", some 99, some "because"⟩, ⟨some "Fabricated", some 5, none⟩]).2

/-- C9: on every failure of the external fetch — network error, timeout or
malformed response, the cases in which the Python `try` body raises —
`fetch_movie_details` returns the documented default record (rating 0, empty
cast, empty genres, "Unknown" release date, default overview) and
`fetch_poster` returns the placeholder URL; both embedded functions are
total, so no exception propagates to the caller. -/
theorem C9_fetch_failure_defaults (movie_id : Int) (err : FetchError) :
    fetch_movie_details movie_id (Except.error err) = defaultDetails ∧
    fetch_poster movie_id (Except.error err) =
      "https://via.placeholder.com/500x750?text=No+Image" ∧
    defaultDetails.rating = 0 ∧ defaultDetails.cast = [] ∧
    defaultDetails.genres = [] ∧ defaultDetails.release_date = "Unknown" ∧
    defaultDetails.overview = "No description available." :=
  ⟨rfl, rfl, rfl, rfl, rfl, rfl, rfl⟩

/-- C10: `recommend` always returns four lists of equal length, and when the
title resolves to no row (the only failure point of the embedded total
function; every other Python failure is caught by the blanket `except`) it
returns four empty lists with the error annotation. -/
theorem C10_recommend_shape_total (movie : String) (movies_df : List Entry)
    (tfidf_matrix : List (List ℚ)) (top_n : ℕ)
    (fp : Int → String) (fd : Int → MovieDetails) :
    ((recommend movie movies_df tfidf_matrix top_n fp fd).recommended_movies.length =
        (recommend movie movies_df tfidf_matrix top_n fp fd).recommended_ids.length ∧
      (recommend movie movies_df tfidf_matrix top_n fp fd).recommended_posters.length =
        (recommend movie movies_df tfidf_matrix top_n fp fd).recommended_ids.length ∧
      (recommend movie movies_df tfidf_matrix top_n fp fd).recommended_ratings.length =
        (recommend movie movies_df tfidf_matrix top_n fp fd).recommended_ids.length) ∧
    ((∀ e ∈ movies_df, e.title ≠ movie) →
      recommend movie movies_df tfidf_matrix top_n fp fd =
        { recommended_movies := [], recommended_posters := []
          recommended_ratings := [], recommended_ids := []
          error := some ("Movie " ++ movie ++ " not found in database") }) := by
  constructor
  · rcases h : movies_df.findIdx? (fun e => e.title = movie) with _ | i
    · simp [recommend, h]
    · simp [recommend, h, List.length_map]
  · intro hne
    have h : movies_df.findIdx? (fun e => e.title = movie) = none := by
      rw [List.findIdx?_eq_none_iff]
      intro x hx
      exact decide_eq_false (hne x hx)
    simp [recommend, h]

/-- C10 witness: an unresolvable title on a concrete catalogue yields the
four empty lists and the annotation. -/
theorem C10_recommend_shape_total_witness :
    recommend "zzz" [⟨1, "A", "t"⟩] [[1]] 5 (fun _ => "p") (fun _ => defaultDetails) =
      { recommended_movies := [], recommended_posters := []
        recommended_ratings := [], recommended_ids := []
        error := some ("Movie " ++ "zzz" ++ " not found in database") } :=
  (C10_recommend_shape_total "zzz" [⟨1, "A", "t"⟩] [[1]] 5 (fun _ => "p")
    (fun _ => defaultDetails)).2 (by decide)

/-- C4: for rows that are nonnegative with squared norm at most 1 (what
`TfidfVectorizer` produces: unit rows, or zero rows for tag texts with no
in-vocabulary term), the ranked `(row index, score)` sequence is sorted by
strictly descending score with equal scores in ascending row-index order
(`rankRel` pairwise), and every score lies in `[0, 1]`.  Determinism is
definitional: the embedding is a pure function of its inputs. -/
theorem C4_ranked_sorted_bounded (movie_index : ℕ) (tfidf_matrix : List (List ℚ))
    (hrows : ∀ row ∈ tfidf_matrix, (∀ x ∈ row, 0 ≤ x) ∧ dotp row row ≤ 1) :
    List.Pairwise rankRel (rankedPairs movie_index tfidf_matrix) ∧
    ∀ p ∈ rankedPairs movie_index tfidf_matrix, 0 ≤ p.2 ∧ p.2 ≤ 1 := by
  have hq : (∀ x ∈ tfidf_matrix.getD movie_index [], 0 ≤ x) ∧
      dotp (tfidf_matrix.getD movie_index []) (tfidf_matrix.getD movie_index []) ≤ 1 := by
    rcases lt_or_ge movie_index tfidf_matrix.length with hlt | hge
    · rw [List.getD_eq_get tfidf_matrix [] hlt]
      exact hrows _ (List.get_mem tfidf_matrix movie_index hlt)
    · rw [List.getD_eq_default tfidf_matrix [] hge]
      refine ⟨by simp, by simp [dotp]⟩
  constructor
  · exact pairwise_sortDesc
      (pairwise_fst_lt_enum (compute_similarity_for_movie movie_index tfidf_matrix))
  · intro p hp
    have hmem : p ∈ (compute_similarity_for_movie movie_index tfidf_matrix).enum :=
      mem_sortDesc.mp hp
    rcases mem_enumFrom_getD 0 0 _ p hmem with ⟨_, hlen, hval⟩
    simp only [Nat.sub_zero] at hlen hval
    have hget : p.2 ∈ compute_similarity_for_movie movie_index tfidf_matrix := by
      rw [hval, List.getD_eq_get _ 0 hlen]
      exact List.get_mem _ _ hlen
    rcases List.mem_map.mp hget with ⟨row, hrow, hdot⟩
    rcases hrows row hrow with ⟨hrnn, hrle⟩
    constructor
    · rw [← hdot]
      exact dotp_nonneg hq.1 hrnn
    · rw [← hdot]
      exact dotp_le_one hq.1 hrnn hq.2 hrle

/-- C4 witness: the ranked sequence for row 0 of a concrete two-row space is
`rankRel`-sorted. -/
theorem C4_ranked_sorted_bounded_witness :
    List.Pairwise rankRel (rankedPairs 0 [[1, 0], [0, 1]]) :=
  (C4_ranked_sorted_bounded 0 [[1, 0], [0, 1]] (by
    intro row hrow
    simp only [List.mem_cons, List.not_mem_nil, or_false] at hrow
    rcases hrow with rfl | rfl
    · refine ⟨?_, by norm_num [dotp]⟩
      intro x hx
      simp only [List.mem_cons, List.not_mem_nil, or_false] at hx
      rcases hx with rfl | rfl <;> norm_num
    · refine ⟨?_, by norm_num [dotp]⟩
      intro x hx
      simp only [List.mem_cons, List.not_mem_nil, or_false] at hx
      rcases hx with rfl | rfl <;> norm_num)).1

/-- C1 counterexample: in `dupDf` (two movies with identical tags, hence
tied similarity scores of 1), querying "B" resolves to row 1, yet row 1 —
the queried movie itself, `movie_id` 2 — is exactly what `recommend`
returns: the slice `[1:top_n+1]` drops the tied row 0 instead of the query
row, because the stable sort puts the smaller index first among ties. -/
theorem C1_counterexample :
    dupDf.findIdx? (fun e => e.title = "B") = some 1 ∧
    (recommendDistances 1 dupMatrix 12).map Prod.fst = [1] ∧
    (recommend "B" dupDf dupMatrix 12 (fun _ => "p")
      (fun _ => defaultDetails)).recommended_ids = [2] := by
  have hfind : dupDf.findIdx? (fun e => e.title = "B") = some 1 := by decide
  have hd : dotp [(1 : ℚ)] [1] = 1 := by norm_num [dotp]
  have hs : compute_similarity_for_movie 1 dupMatrix = [1, 1] := by
    simp [compute_similarity_for_movie, dupMatrix, hd]
  have hr : rankedPairs 1 dupMatrix = [(0, 1), (1, 1)] := by
    rw [rankedPairs, hs]
    simp [List.enum, List.enumFrom, sortDesc, insertDesc]
  have hdist : recommendDistances 1 dupMatrix 12 = [(1, 1)] := by
    rw [recommendDistances, hr]
    rfl
  refine ⟨hfind, by rw [hdist]; rfl, ?_⟩
  simp [recommend, hfind, hdist, dupDf]
  rfl

/-- C1 amended: `recommend` excludes the queried movie's own row from the
ranked output whenever every other row's similarity score is strictly below
the query row's self-score (in particular whenever no other row ties the
maximal score); the slice `[1:top_n+1]` drops exactly the top-ranked pair of
the stable descending sort, which is then the query row.  (When another row
ties the self-score with a smaller index, the query row can appear in its
own output — see the counterexample.) -/
theorem C1_amended (movie : String) (movies_df : List Entry)
    (tfidf_matrix : List (List ℚ)) (top_n : ℕ) (movie_index : ℕ)
    (fp : Int → String) (fd : Int → MovieDetails)
    (hfind : movies_df.findIdx? (fun e => e.title = movie) = some movie_index)
    (hml : tfidf_matrix.length = movies_df.length)
    (hmax : ∀ j, j ≠ movie_index →
      j < (compute_similarity_for_movie movie_index tfidf_matrix).length →
      (compute_similarity_for_movie movie_index tfidf_matrix).getD j 0 <
        (compute_similarity_for_movie movie_index tfidf_matrix).getD movie_index 0) :
    (∀ p ∈ recommendDistances movie_index tfidf_matrix top_n, p.1 ≠ movie_index) ∧
    (recommend movie movies_df tfidf_matrix top_n fp fd).recommended_ids =
      (recommendDistances movie_index tfidf_matrix top_n).map
        (fun p => (movies_df.getD p.1 default).movie_id) := by
  have hi : movie_index < movies_df.length :=
    (List.findIdx?_eq_some_iff_findIdx_eq.mp hfind).1
  have hslen : (compute_similarity_for_movie movie_index tfidf_matrix).length =
      tfidf_matrix.length := by
    rw [compute_similarity_for_movie]
    exact List.length_map _ _
  have hi2 : movie_index < (compute_similarity_for_movie movie_index tfidf_matrix).length := by
    rw [hslen, hml]
    exact hi
  have hmem : (movie_index,
      (compute_similarity_for_movie movie_index tfidf_matrix).getD movie_index 0) ∈
      (compute_similarity_for_movie movie_index tfidf_matrix).enum := by
    have hm := enumFrom_mem_getD 0 0 movie_index
      (compute_similarity_for_movie movie_index tfidf_matrix) hi2
    simpa using hm
  have hmax2 : ∀ p ∈ (compute_similarity_for_movie movie_index tfidf_matrix).enum,
      p.1 ≠ movie_index →
      p.2 < (compute_similarity_for_movie movie_index tfidf_matrix).getD movie_index 0 := by
    intro p hp hne
    rcases mem_enumFrom_getD 0 0 _ p hp with ⟨_, hlen, hval⟩
    simp only [Nat.sub_zero] at hlen hval
    rw [hval]
    exact hmax p.1 hne hlen
  have hdrop := sortDesc_drop_one_ne
    (pairwise_fst_lt_enum (compute_similarity_for_movie movie_index tfidf_matrix))
    hmem hmax2
  constructor
  · intro p hp
    have hp2 : p ∈ (sortDesc (compute_similarity_for_movie movie_index tfidf_matrix).enum).drop 1 :=
      List.take_subset _ _ hp
    exact hdrop p hp2
  · simp [recommend, hfind]

/-- C1 witness: on an orthogonal two-row space the query "A" (row 0, unique
maximal self-score) is excluded and the recommended ids are the mapped
distances. -/
theorem C1_amended_witness :
    (recommend "A" [⟨1, "A", "x"⟩, ⟨2, "B", "y"⟩] [[1, 0], [0, 1]] 12
        (fun _ => "p") (fun _ => defaultDetails)).recommended_ids =
      (recommendDistances 0 [[1, 0], [0, 1]] 12).map
        (fun p => (([⟨1, "A", "x"⟩, ⟨2, "B", "y"⟩] : List Entry).getD p.1 default).movie_id) :=
  (C1_amended "A" [⟨1, "A", "x"⟩, ⟨2, "B", "y"⟩] [[1, 0], [0, 1]] 12 0
    (fun _ => "p") (fun _ => defaultDetails) (by decide) (by decide)
    (by
      have hs : compute_similarity_for_movie 0 [[1, 0], [0, 1]] = [1, 0] := by
        norm_num [compute_similarity_for_movie, dotp]
      intro j h1 h2
      rw [hs] at h2 ⊢
      simp only [List.length_cons, List.length_nil] at h2
      have hj : j = 1 := by omega
      subst hj
      norm_num [List.getD])).2

/-- C3 amended: with a resolvable title and one matrix row per catalogue
row, `recommend` returns exactly `top_n` results when the catalogue has at
least `top_n + 1` entries, and exactly `N - 1` results (the whole ranking
minus the dropped top pair — the queried row itself whenever its self-score
is the unique maximum, per C1) when the catalogue has `N < top_n + 1`
entries; no error in either case. -/
theorem C3_amended (movie : String) (movies_df : List Entry)
    (tfidf_matrix : List (List ℚ)) (top_n : ℕ) (movie_index : ℕ)
    (fp : Int → String) (fd : Int → MovieDetails)
    (hfind : movies_df.findIdx? (fun e => e.title = movie) = some movie_index)
    (hml : tfidf_matrix.length = movies_df.length) :
    (top_n + 1 ≤ movies_df.length →
      (recommend movie movies_df tfidf_matrix top_n fp fd).recommended_ids.length = top_n) ∧
    (movies_df.length < top_n + 1 →
      (recommend movie movies_df tfidf_matrix top_n fp fd).recommended_ids.length =
        movies_df.length - 1) := by
  have hslen : (compute_similarity_for_movie movie_index tfidf_matrix).length =
      movies_df.length := by
    rw [compute_similarity_for_movie, List.length_map, hml]
  have hlen : (recommendDistances movie_index tfidf_matrix top_n).length =
      min top_n (movies_df.length - 1) := by
    simp only [recommendDistances, rankedPairs, List.length_take, List.length_drop,
      sortDesc_length, List.enum_length, hslen]
  have hids : (recommend movie movies_df tfidf_matrix top_n fp fd).recommended_ids.length =
      min top_n (movies_df.length - 1) := by
    simp only [recommend, hfind, List.length_map, hlen]
  rw [hids]
  constructor
  · intro h
    omega
  · intro h
    omega

/-- C3 witness: a 2-entry catalogue with `top_n = 12` yields `2 - 1 = 1`
result. -/
theorem C3_amended_witness :
    12 + 1 ≤ ([⟨1, "A", "x"⟩, ⟨2, "B", "y"⟩] : List Entry).length ∨
    (recommend "A" [⟨1, "A", "x"⟩, ⟨2, "B", "y"⟩] [[1, 0], [0, 1]] 12
      (fun _ => "p") (fun _ => defaultDetails)).recommended_ids.length =
      ([⟨1, "A", "x"⟩, ⟨2, "B", "y"⟩] : List Entry).length - 1 :=
  Or.inr ((C3_amended "A" [⟨1, "A", "x"⟩, ⟨2, "B", "y"⟩] [[1, 0], [0, 1]] 12 0
    (fun _ => "p") (fun _ => defaultDetails) (by decide) (by decide)).2 (by decide))

/-- C3 counterexample: `dupDf` has 2 entries, fewer than `top_n + 1 = 13`,
so the claim demands all entries other than the queried one — id 1.  The
code instead returns id 2, the queried movie itself (the tied row 0 was
dropped by the slice). -/
theorem C3_counterexample :
    dupDf.length < 12 + 1 ∧
    (recommend "B" dupDf dupMatrix 12 (fun _ => "p")
      (fun _ => defaultDetails)).recommended_ids = [2] ∧
    (recommend "B" dupDf dupMatrix 12 (fun _ => "p")
      (fun _ => defaultDetails)).recommended_ids ≠ [1] := by
  have hfind : dupDf.findIdx? (fun e => e.title = "B") = some 1 := by decide
  have hd : dotp [(1 : ℚ)] [1] = 1 := by norm_num [dotp]
  have hs : compute_similarity_for_movie 1 dupMatrix = [1, 1] := by
    simp [compute_similarity_for_movie, dupMatrix, hd]
  have hr : rankedPairs 1 dupMatrix = [(0, 1), (1, 1)] := by
    rw [rankedPairs, hs]
    simp [List.enum, List.enumFrom, sortDesc, insertDesc]
  have hdist : recommendDistances 1 dupMatrix 12 = [(1, 1)] := by
    rw [recommendDistances, hr]
    rfl
  refine ⟨by decide, ?_, ?_⟩
  · simp [recommend, hfind, hdist, dupDf]
    rfl
  · simp [recommend, hfind, hdist, dupDf]
    decide

/-- C2 counterexample: the catalogue `inceptionDf` contains exactly one
entry whose title equals "inception" up to case, yet `recommend "inception"`
fails with the not-found annotation and empty lists, while the exact-case
`recommend "Inception"` succeeds — `recommend` never consults the
case-insensitive Title Resolver, it matches `movies_df['title'] == movie`
case-sensitively. -/
theorem C2_counterexample :
    (inceptionDf.filter
      (fun e => lowerChars e.title.data = lowerChars "inception".data)).length = 1 ∧
    (recommend "inception" inceptionDf inceptionMatrix 12 (fun _ => "p")
      (fun _ => defaultDetails)).error =
        some ("Movie " ++ "inception" ++ " not found in database") ∧
    (recommend "inception" inceptionDf inceptionMatrix 12 (fun _ => "p")
      (fun _ => defaultDetails)).recommended_ids = [] ∧
    (recommend "Inception" inceptionDf inceptionMatrix 12 (fun _ => "p")
      (fun _ => defaultDetails)).recommended_ids = [2] := by
  have hnone : inceptionDf.findIdx? (fun e => e.title = "inception") = none := by decide
  have hsome : inceptionDf.findIdx? (fun e => e.title = "Inception") = some 0 := by decide
  have hd1 : dotp [(1 : ℚ), 0] [1, 0] = 1 := by norm_num [dotp]
  have hd2 : dotp [(1 : ℚ), 0] [0, 1] = 0 := by norm_num [dotp]
  have hs : compute_similarity_for_movie 0 inceptionMatrix = [1, 0] := by
    simp [compute_similarity_for_movie, inceptionMatrix, hd1, hd2]
  have hr : rankedPairs 0 inceptionMatrix = [(0, 1), (1, 0)] := by
    rw [rankedPairs, hs]
    simp [List.enum, List.enumFrom, sortDesc, insertDesc]
  have hdist : recommendDistances 0 inceptionMatrix 12 = [(1, 0)] := by
    rw [recommendDistances, hr]
    rfl
  refine ⟨by decide, ?_, ?_, ?_⟩
  · simp [recommend, hnone]
  · simp [recommend, hnone]
  · simp [recommend, hsome, hdist, inceptionDf]

/-- C2 amended: title resolution and recommendation are separate steps.  The
case-insensitive resolver (`handle_search`) selects the first entry whose
title matches the input up to case; `recommend` itself matches its argument
exactly and case-sensitively — it succeeds (no error annotation) exactly on
an exact-title match, and on failure returns the empty annotated result
instead of raising. -/
theorem C2_amended (movie : String) (movies_df : List Entry)
    (tfidf_matrix : List (List ℚ)) (top_n : ℕ)
    (fp : Int → String) (fd : Int → MovieDetails) :
    (∀ e : Entry, movie ≠ "" →
      movies_df.find?
        (fun e2 => lowerChars e2.title.data = lowerChars movie.data) = some e →
      handle_search movie movies_df = SearchOutcome.selected e.title) ∧
    ((movies_df.findIdx? (fun e => e.title = movie)).isSome →
      (recommend movie movies_df tfidf_matrix top_n fp fd).error = none) ∧
    (movies_df.findIdx? (fun e => e.title = movie) = none →
      recommend movie movies_df tfidf_matrix top_n fp fd =
        { recommended_movies := [], recommended_posters := []
          recommended_ratings := [], recommended_ids := []
          error := some ("Movie " ++ movie ++ " not found in database") }) := by
  refine ⟨?_, ?_, ?_⟩
  · intro e hne hfind
    simp [handle_search, hne, hfind]
  · intro hsome
    rcases ho : movies_df.findIdx? (fun e => e.title = movie) with _ | i
    · rw [ho] at hsome
      simp at hsome
    · simp [recommend, ho]
  · intro h
    simp [recommend, h]

/-- C2 witness: the resolver selects "Inception" from the lower-case input,
and an unresolvable exact title yields the annotated empty result. -/
theorem C2_amended_witness :
    handle_search "inception" inceptionDf = SearchOutcome.selected "Inception" ∧
    recommend "nosuch" inceptionDf inceptionMatrix 12 (fun _ => "p")
        (fun _ => defaultDetails) =
      { recommended_movies := [], recommended_posters := []
        recommended_ratings := [], recommended_ids := []
        error := some ("Movie " ++ "nosuch" ++ " not found in database") } :=
  ⟨(C2_amended "inception" inceptionDf inceptionMatrix 12 (fun _ => "p")
      (fun _ => defaultDetails)).1 ⟨1, "Inception", "t"⟩ (by decide) (by decide),
   (C2_amended "nosuch" inceptionDf inceptionMatrix 12 (fun _ => "p")
      (fun _ => defaultDetails)).2.2 (by decide)⟩

/-- C5 amended: `handle_search` warns "no movie found" exactly when the
stripped input is non-empty, no title matches the input case-insensitively
and exactly, and no title matches the input as a case-insensitive REGULAR
EXPRESSION (`str.contains` default semantics, not plain substring
containment; for metacharacter-free input the two coincide).  A whitespace
input whose characters match no title falls through silently (its strip is
empty), and an empty input is never looked up at all. -/
theorem C5_amended (search_input : String) (movies_df : List Entry) :
    handle_search search_input movies_df = SearchOutcome.warned ↔
      (stripChars search_input.data ≠ [] ∧
       (∀ e ∈ movies_df, lowerChars e.title.data ≠ lowerChars search_input.data) ∧
       (∀ e ∈ movies_df, pyContainsCI search_input e.title = false)) := by
  constructor
  · intro hw
    by_cases h0 : search_input = ""
    · subst h0
      simp [handle_search] at hw
    · rcases hf : movies_df.find?
          (fun e => lowerChars e.title.data = lowerChars search_input.data) with _ | e
      · rcases hfil : movies_df.filter (fun e => pyContainsCI search_input e.title)
            with _ | ⟨r, rs⟩
        · simp only [handle_search, if_neg h0, hf, hfil] at hw
          by_cases hs : stripChars search_input.data = []
          · simp [hs] at hw
          · exact ⟨hs,
              fun e he => by simpa using List.find?_eq_none.mp hf e he,
              fun e he => by simpa using List.filter_eq_nil.mp hfil e he⟩
        · simp only [handle_search, if_neg h0, hf, hfil] at hw
          simp at hw
      · simp only [handle_search, if_neg h0, hf] at hw
        simp at hw
  · rintro ⟨hs, hnoexact, hnosub⟩
    have h0 : search_input ≠ "" := by
      intro h
      subst h
      exact hs (by simp [stripChars])
    have hf : movies_df.find?
        (fun e => lowerChars e.title.data = lowerChars search_input.data) = none :=
      List.find?_eq_none.mpr (fun e he => by simpa using hnoexact e he)
    have hfil : movies_df.filter (fun e => pyContainsCI search_input e.title) = [] :=
      List.filter_eq_nil.mpr (fun e he => by simpa using hnosub e he)
    simp [handle_search, h0, hf, hfil, hs]

/-- C5 witness: a plain-text input with no exact and no regex match warns. -/
theorem C5_amended_witness :
    handle_search "qq" [⟨1, "xyz", "t"⟩] = SearchOutcome.warned :=
  (C5_amended "qq" [⟨1, "xyz", "t"⟩]).mpr ⟨by decide, by decide, by decide⟩

/-- C5 counterexample: the input "x.z" is not a substring of the only title
"xyz" (and no exact match exists), so the claim demands the structured
no-match outcome; but `str.contains` treats the text as a regex, `.` matches
`y`, and the resolver SELECTS "xyz" instead. -/
theorem C5_counterexample :
    specSubstringCI "x.z" "xyz" = false ∧
    lowerChars "xyz".data ≠ lowerChars "x.z".data ∧
    handle_search "x.z" [⟨1, "xyz", "t"⟩] = SearchOutcome.selected "xyz" := by
  have hf : ([⟨1, "xyz", "t"⟩] : List Entry).find?
      (fun e => lowerChars e.title.data = lowerChars "x.z".data) = none := by decide
  have hfil : ([⟨1, "xyz", "t"⟩] : List Entry).filter
      (fun e => pyContainsCI "x.z" e.title) = [⟨1, "xyz", "t"⟩] := by decide
  refine ⟨by decide, by decide, ?_⟩
  simp [handle_search, hf, hfil, bestBy]

/-- C6 amended: when the input is non-empty, there is no case-insensitive
exact match, and the candidate list — the catalogue rows whose title matches
the input as a case-insensitive REGEX (`str.contains` default; a superset of
the substring matches, coinciding for metacharacter-free input) — is
non-empty, the resolver selects the candidate with the maximal
SequenceMatcher ratio, and among equal ratios the earliest candidate in
catalogue row order (the sort is modelled as stable descending; `filter`
preserves row order). -/
theorem C6_amended (search_input : String) (movies_df : List Entry)
    (r : Entry) (rs : List Entry)
    (h0 : search_input ≠ "")
    (hnoexact : movies_df.find?
      (fun e => lowerChars e.title.data = lowerChars search_input.data) = none)
    (hfil : movies_df.filter (fun e => pyContainsCI search_input e.title) = r :: rs) :
    handle_search search_input movies_df =
      SearchOutcome.selected (bestBy (ratioOf search_input) r rs).title ∧
    bestBy (ratioOf search_input) r rs ∈ r :: rs ∧
    (∀ y ∈ r :: rs, ratioOf search_input y ≤
      ratioOf search_input (bestBy (ratioOf search_input) r rs)) ∧
    ∃ l1 l2, r :: rs = l1 ++ (bestBy (ratioOf search_input) r rs) :: l2 ∧
      ∀ y ∈ l1, ratioOf search_input y <
        ratioOf search_input (bestBy (ratioOf search_input) r rs) := by
  refine ⟨?_, bestBy_mem _ r rs, bestBy_max _ r rs, bestBy_first _ r rs⟩
  simp [handle_search, h0, hnoexact, hfil]

/-- C6 witness: both titles contain "ab"; the resolver selects the best-ratio
candidate. -/
theorem C6_amended_witness :
    handle_search "ab" [⟨1, "xaby", "t"⟩, ⟨2, "zab", "u"⟩] =
      SearchOutcome.selected
        (bestBy (ratioOf "ab") ⟨1, "xaby", "t"⟩ [⟨2, "zab", "u"⟩]).title :=
  (C6_amended "ab" [⟨1, "xaby", "t"⟩, ⟨2, "zab", "u"⟩] ⟨1, "xaby", "t"⟩
    [⟨2, "zab", "u"⟩] (by decide) (by decide) (by decide)).1

/-- C6 counterexample: for input "a.c" the only SUBSTRING candidate is
"a.czzzz" (ratio 3/5), so the claim demands it be selected; but the code's
regex candidate set also admits "abc" (`.` matches `b`, ratio 2/3), and the
resolver selects "abc" — a title that does not contain the user text as a
substring at all. -/
theorem C6_counterexample :
    specSubstringCI "a.c" "a.czzzz" = true ∧
    specSubstringCI "a.c" "abc" = false ∧
    ([⟨1, "a.czzzz", "t"⟩, ⟨2, "abc", "u"⟩] : List Entry).find?
      (fun e => lowerChars e.title.data = lowerChars "a.c".data) = none ∧
    handle_search "a.c" [⟨1, "a.czzzz", "t"⟩, ⟨2, "abc", "u"⟩] =
      SearchOutcome.selected "abc" := by
  have hf : ([⟨1, "a.czzzz", "t"⟩, ⟨2, "abc", "u"⟩] : List Entry).find?
      (fun e => lowerChars e.title.data = lowerChars "a.c".data) = none := by decide
  have hfil : ([⟨1, "a.czzzz", "t"⟩, ⟨2, "abc", "u"⟩] : List Entry).filter
      (fun e => pyContainsCI "a.c" e.title) =
      [⟨1, "a.czzzz", "t"⟩, ⟨2, "abc", "u"⟩] := by decide
  have hM1 : matchedTotal (lowerChars "a.c".data) (lowerChars "a.czzzz".data)
      3 0 3 0 7 = 3 := by decide
  have hM2 : matchedTotal (lowerChars "a.c".data) (lowerChars "abc".data)
      3 0 3 0 3 = 2 := by decide
  have hl1 : (lowerChars "a.c".data).length = 3 := by decide
  have hl2 : (lowerChars "a.czzzz".data).length = 7 := by decide
  have hl3 : (lowerChars "abc".data).length = 3 := by decide
  have h1s : sequenceMatcherRatio (lowerChars "a.c".data) (lowerChars "a.czzzz".data) =
      3 / 5 := by
    rw [sequenceMatcherRatio, hl1, hl2, hM1]
    norm_num
  have h2s : sequenceMatcherRatio (lowerChars "a.c".data) (lowerChars "abc".data) =
      2 / 3 := by
    rw [sequenceMatcherRatio, hl1, hl3, hM2]
    norm_num
  have h1 : ratioOf "a.c" ⟨1, "a.czzzz", "t"⟩ = 3 / 5 := h1s
  have h2 : ratioOf "a.c" ⟨2, "abc", "u"⟩ = 2 / 3 := h2s
  have hlt : ratioOf "a.c" ⟨1, "a.czzzz", "t"⟩ < ratioOf "a.c" ⟨2, "abc", "u"⟩ := by
    rw [h1, h2]
    norm_num
  have hbest : bestBy (ratioOf "a.c") ⟨1, "a.czzzz", "t"⟩ [⟨2, "abc", "u"⟩] =
      ⟨2, "abc", "u"⟩ := by
    rw [bestBy_cons, if_pos hlt]
    rfl
  refine ⟨by decide, by decide, hf, ?_⟩
  simp [handle_search, hf, hfil, hbest]

theorem dotpR_self_nonneg (v : List ℝ) : 0 ≤ dotpR v v := by
  induction v with
  | nil => simp [dotpR]
  | cons a v ih =>
      have h : dotpR (a :: v) (a :: v) = a * a + dotpR v v := by simp [dotpR]
      rw [h]
      nlinarith [mul_self_nonneg a]

/-- C7 amended: the cosine similarity of a NONZERO row with itself is
exactly 1 — the square roots of the L2 normalization cancel against the
self dot product.  (A zero row, produced for a tag text with no vocabulary
term, has self-similarity 0 under sklearn's zero-norm guard — see the
counterexample.) -/
theorem C7_amended (v : List ℝ) (hv : dotpR v v ≠ 0) :
    cosineSimilarityR v v = 1 := by
  rw [cosineSimilarityR, safeNorm, if_neg hv,
    Real.mul_self_sqrt (dotpR_self_nonneg v)]
  exact div_self hv

/-- C7 witness: self-similarity of the concrete nonzero row `[1]` is 1. -/
theorem C7_amended_witness :
    dotpR [(1 : ℝ)] [(1 : ℝ)] ≠ 0 ∧ cosineSimilarityR [(1 : ℝ)] [(1 : ℝ)] = 1 :=
  ⟨by simp [dotpR], C7_amended [(1 : ℝ)] (by simp [dotpR])⟩

/-- C7 counterexample: the zero row (a catalogue entry whose tags contain no
in-vocabulary term) has self-similarity 0, not 1: `sklearn.preprocessing.normalize`
substitutes norm 1 for zero rows, so `cosine_similarity` yields `0 / 1 = 0`. -/
theorem C7_counterexample :
    dotpR [(0 : ℝ)] [(0 : ℝ)] = 0 ∧
    cosineSimilarityR [(0 : ℝ)] [(0 : ℝ)] = 0 ∧ (0 : ℝ) ≠ 1 := by
  have h : dotpR [(0 : ℝ)] [(0 : ℝ)] = 0 := by simp [dotpR]
  refine ⟨h, ?_, by norm_num⟩
  rw [cosineSimilarityR, safeNorm, if_pos h, h]
  norm_num
